import Mathlib

/-!
Verification of the publication lifecycle and tasking core of pulpcore.

The first part embeds `src/pulpcore/app/models/publication.py`: the
`Publication` model with its `create` classmethod, `delete` method and the
context-manager protocol (`__enter__`/`__exit__`), together with the
`PublishedArtifact` and `PublishedMetadata` models and the uniqueness
constraints declared in their `Meta.unique_together`.

The database is modelled as explicit lists of rows; Django's
`transaction.atomic` scopes are modelled by making each operation a single
total transition on the database state (all of its writes happen in one
step, or none do when the operation reports an error).  Foreign keys with
`on_delete=CASCADE` are modelled by deleting the dependent rows inside the
owner's delete.

The second part models the task scheduler and task lifecycle manager from
the specification (their implementation is exercised only through
functional tests in this repository).
-/

namespace Pulpcore

/-- A row of the `Publication` table.  Fields follow the model declaration:
`complete` (default `False`), `pass_through` (default `False`), the nullable
`publisher` foreign key and the `repository_version` foreign key.  Primary
keys and foreign keys are modelled as natural numbers. -/
structure PublicationRow where
  pk : Nat
  complete : Bool
  pass_through : Bool
  publisher : Option Nat
  repository_version : Nat
deriving Repr, DecidableEq

/-- A row of the `PublishedArtifact` table: the `publication` foreign key
(with `on_delete=CASCADE`), the `content_artifact` foreign key and the
`relative_path` character field inherited from `PublishedFile`. -/
structure PublishedArtifactRow where
  pk : Nat
  publication : Nat
  content_artifact : Nat
  relative_path : String
deriving Repr, DecidableEq

/-- A row of the `PublishedMetadata` table: the `publication` foreign key
(with `on_delete=CASCADE`), the stored `file` and the `relative_path`
character field inherited from `PublishedFile`. -/
structure PublishedMetadataRow where
  pk : Nat
  publication : Nat
  file : String
  relative_path : String
deriving Repr, DecidableEq

/-- A row of the `CreatedResource` table, reduced to the generic foreign key
`object_id` that `Publication.delete` filters on. -/
structure CreatedResourceRow where
  pk : Nat
  object_id : Nat
deriving Repr, DecidableEq

/-- The database state touched by `publication.py`: one list per table, plus
the next fresh primary key handed out on insert. -/
structure DBState where
  publications : List PublicationRow
  publishedArtifacts : List PublishedArtifactRow
  publishedMetadata : List PublishedMetadataRow
  createdResources : List CreatedResourceRow
  nextPk : Nat
deriving Repr, DecidableEq

/-- Error taxonomy relevant to publication building: `DuplicatePath` is the
failure of an add that violates a per-publication uniqueness constraint. -/
inductive PubError where
  | DuplicatePath
deriving Repr, DecidableEq

namespace Publication

/-- `Publication.save` for a handle whose primary key may or may not already
have a row: an existing row with the same `pk` is overwritten in place,
otherwise the row is appended (Django `Model.save` update-or-insert). -/
def savePublication (db : DBState) (pub : PublicationRow) : DBState :=
  if db.publications.any (fun r => r.pk == pub.pk) then
    { db with publications :=
        db.publications.map (fun r => if r.pk == pub.pk then pub else r) }
  else
    { db with publications := db.publications ++ [pub] }

/-- `Publication.create(repository_version, publisher=None, pass_through=False)`:
inside one `transaction.atomic()` scope it builds the publication with
`complete` at its default `False`, sets `publisher` only when one was given,
saves it, saves a `CreatedResource` whose `content_object` is the
publication, and returns the publication handle.  The whole body is a single
transition on `DBState`. -/
def create (db : DBState) (repository_version : Nat) (publisher : Option Nat)
    (pass_through : Bool) : PublicationRow × DBState :=
  let pub : PublicationRow :=
    { pk := db.nextPk
      complete := false
      pass_through := pass_through
      publisher := publisher
      repository_version := repository_version }
  let resource : CreatedResourceRow := { pk := db.nextPk + 1, object_id := pub.pk }
  (pub,
    { db with
        publications := db.publications ++ [pub]
        createdResources := db.createdResources ++ [resource]
        nextPk := db.nextPk + 2 })

/-- `Publication.delete`: inside one atomic scope it deletes every
`CreatedResource` with `object_id` equal to the publication's `pk`, then
calls `super().delete()`, whose `on_delete=CASCADE` rules remove the
publication row and every `PublishedArtifact` and `PublishedMetadata` row
pointing at it. -/
def delete (db : DBState) (pub : PublicationRow) : DBState :=
  { publications := db.publications.filter (fun r => r.pk != pub.pk)
    publishedArtifacts := db.publishedArtifacts.filter (fun r => r.publication != pub.pk)
    publishedMetadata := db.publishedMetadata.filter (fun r => r.publication != pub.pk)
    createdResources := db.createdResources.filter (fun r => r.object_id != pub.pk)
    nextPk := db.nextPk }

/-- `Publication.__exit__(exc_type, exc_val, exc_tb)`: when no exception was
raised (`not exc_val`), sets `complete = True` on the handle and saves it;
otherwise deletes the publication.  The Python method has no `return`
statement, so it returns `None`, which is falsy: the second component is the
truthiness of the returned value, i.e. whether the exception is suppressed. -/
def exitScope (db : DBState) (pub : PublicationRow) (exc_val : Option Nat) :
    DBState × Bool :=
  match exc_val with
  | none => (savePublication db { pub with complete := true }, false)
  | some _ => (delete db pub, false)

end Publication

namespace PublishedArtifact

/-- Saving a new `PublishedArtifact` row.  `Meta.unique_together` declares
`('publication', 'content_artifact')` and `('publication', 'relative_path')`;
the storage layer rejects a row that collides with an existing row of the
same publication on either pair, surfaced as `DuplicatePath`, and persists
nothing.  Otherwise the row is appended. -/
def save (db : DBState) (row : PublishedArtifactRow) : Except PubError DBState :=
  if db.publishedArtifacts.any (fun r =>
      r.publication == row.publication
        && (r.content_artifact == row.content_artifact
              || r.relative_path == row.relative_path)) then
    .error .DuplicatePath
  else
    .ok { db with publishedArtifacts := db.publishedArtifacts ++ [row] }

end PublishedArtifact

namespace PublishedMetadata

/-- Saving a new `PublishedMetadata` row.  `Meta.unique_together` declares
`('publication', 'file')` and `('publication', 'relative_path')`; the
storage layer rejects a row that collides with an existing row of the same
publication on either pair, surfaced as `DuplicatePath`, and persists
nothing.  Otherwise the row is appended. -/
def save (db : DBState) (row : PublishedMetadataRow) : Except PubError DBState :=
  if db.publishedMetadata.any (fun r =>
      r.publication == row.publication
        && (r.file == row.file || r.relative_path == row.relative_path)) then
    .error .DuplicatePath
  else
    .ok { db with publishedMetadata := db.publishedMetadata ++ [row] }

end PublishedMetadata

/-- The operations of `publication.py` that touch the database, as one step
type: `create`, an artifact add, a metadata add, a scope exit (with or
without a pending exception) and a bare `delete`. -/
inductive PubOp where
  | create (repository_version : Nat) (publisher : Option Nat) (pass_through : Bool)
  | addArtifact (row : PublishedArtifactRow)
  | addMetadata (row : PublishedMetadataRow)
  | scopeExit (pub : PublicationRow) (exc_val : Option Nat)
  | deletePub (pub : PublicationRow)
deriving Repr, DecidableEq

/-- Apply one operation to the database.  A rejected add (`DuplicatePath`)
persists nothing, so it leaves the state unchanged. -/
def applyOp (db : DBState) (op : PubOp) : DBState :=
  match op with
  | .create rv publisher pt => (Publication.create db rv publisher pt).2
  | .addArtifact row =>
      match PublishedArtifact.save db row with
      | .ok db2 => db2
      | .error _ => db
  | .addMetadata row =>
      match PublishedMetadata.save db row with
      | .ok db2 => db2
      | .error _ => db
  | .scopeExit pub exc => (Publication.exitScope db pub exc).1
  | .deletePub pub => Publication.delete db pub

/-- Well-formedness of a database state: primary keys of publication rows
are pairwise distinct and all below the fresh-key counter. -/
def WF (db : DBState) : Prop :=
  (db.publications.map PublicationRow.pk).Nodup ∧
    ∀ r ∈ db.publications, r.pk < db.nextPk

end Pulpcore

namespace Pulpcore

section PublicationLemmas

/-- Overwriting the row at key `k` and then selecting by `k` yields copies of
the overwritten row, one per previously matching row. -/
lemma filter_pk_map (l : List PublicationRow) (p' : PublicationRow) (k : Nat)
    (h1 : p'.pk = k) :
    ((l.map fun r => if r.pk == k then p' else r).filter fun r => r.pk == k)
      = List.replicate (l.filter fun r => r.pk == k).length p' := by
  induction l with
  | nil => simp
  | cons a t ih =>
    simp only [List.map_cons, List.filter_cons]
    by_cases h : (a.pk == k) = true
    · have hp2 : (p'.pk == k) = true := by simp [h1]
      simp only [h, hp2, if_true, List.length_cons, List.replicate_succ, ih]
    · have h2 : (a.pk == k) = false := eq_false_of_ne_true h
      simp only [h2, Bool.false_eq_true, if_false, ih]

/-- Overwriting the row at key `k` leaves the rows at other keys unchanged. -/
lemma filter_ne_map (l : List PublicationRow) (p' : PublicationRow) (k : Nat)
    (h1 : p'.pk = k) :
    ((l.map fun r => if r.pk == k then p' else r).filter fun r => r.pk != k)
      = l.filter fun r => r.pk != k := by
  induction l with
  | nil => simp
  | cons a t ih =>
    simp only [List.map_cons, List.filter_cons]
    by_cases h : (a.pk == k) = true
    · have hp2 : (p'.pk != k) = false := by simp [h1]
      have ha : (a.pk != k) = false := by simp_all
      simp only [h, hp2, ha, if_true, Bool.false_eq_true, if_false, ih]
    · have h2 : (a.pk == k) = false := eq_false_of_ne_true h
      have ha : (a.pk != k) = true := by simp_all
      simp only [h2, ha, Bool.false_eq_true, if_false, if_true, ih]

/-- `Publication.save` touches only the publication table. -/
lemma savePublication_frame (db : DBState) (p : PublicationRow) :
    (Publication.savePublication db p).publishedArtifacts = db.publishedArtifacts ∧
    (Publication.savePublication db p).publishedMetadata = db.publishedMetadata ∧
    (Publication.savePublication db p).createdResources = db.createdResources := by
  unfold Publication.savePublication
  split <;> exact ⟨rfl, rfl, rfl⟩

/-- The publication table after a `Publication.save`, by cases on whether a
row with the handle's key already exists. -/
lemma savePublication_publications (db : DBState) (p : PublicationRow) :
    (Publication.savePublication db p).publications
      = if db.publications.any (fun r => r.pk == p.pk) then
          db.publications.map (fun r => if r.pk == p.pk then p else r)
        else db.publications ++ [p] := by
  unfold Publication.savePublication
  split <;> simp_all

end PublicationLemmas

/-- C1.  A publication scope that exits without an exception sets
`complete = True` on its publication and saves it: afterwards the database
holds exactly one row for that publication's primary key, that row is the
handle with `complete = true`, and every artifact, metadata and
created-resource row present at exit time is still present unchanged. -/
theorem publication_scope_commit (db : DBState) (pub : PublicationRow)
    (hlen : (db.publications.filter fun r => r.pk == pub.pk).length ≤ 1) :
    (Publication.exitScope db pub none).1.publications.filter
        (fun r => r.pk == pub.pk) = [{ pub with complete := true }] ∧
    (Publication.exitScope db pub none).1.publishedArtifacts = db.publishedArtifacts ∧
    (Publication.exitScope db pub none).1.publishedMetadata = db.publishedMetadata ∧
    (Publication.exitScope db pub none).1.createdResources = db.createdResources := by
  have hred : (Publication.exitScope db pub none).1
      = Publication.savePublication db { pub with complete := true } := rfl
  rw [hred]
  rcases savePublication_frame db { pub with complete := true } with ⟨hf1, hf2, hf3⟩
  refine ⟨?_, hf1, hf2, hf3⟩
  rw [savePublication_publications]
  have hkey : ({ pub with complete := true } : PublicationRow).pk = pub.pk := rfl
  simp only [hkey]
  by_cases hany : db.publications.any (fun r => r.pk == pub.pk) = true
  · rw [if_pos hany, filter_pk_map db.publications { pub with complete := true } pub.pk rfl]
    have hpos : 0 < (db.publications.filter fun r => r.pk == pub.pk).length := by
      rw [List.length_pos_iff_ne_nil]
      intro hnil
      rcases List.any_eq_true.mp hany with ⟨r, hr, hrk⟩
      have hmem : r ∈ db.publications.filter fun r => r.pk == pub.pk :=
        List.mem_filter.mpr ⟨hr, hrk⟩
      rw [hnil] at hmem
      exact absurd hmem (List.not_mem_nil r)
    have h1 : (db.publications.filter fun r => r.pk == pub.pk).length = 1 :=
      Nat.le_antisymm hlen hpos
    rw [h1]
    rfl
  · rw [if_neg hany, List.filter_append]
    have hfalse : db.publications.any (fun r => r.pk == pub.pk) = false :=
      Bool.not_eq_true _ ▸ eq_false_of_ne_true hany
    have hnil : db.publications.filter (fun r => r.pk == pub.pk) = [] := by
      rw [List.filter_eq_nil_iff]
      intro a ha hak
      rcases List.any_eq_false.mp hfalse a ha with h
      exact h hak
    rw [hnil]
    simp

/-- Witness for `publication_scope_commit` at a concrete one-row database. -/
theorem publication_scope_commit_witness :
    (Publication.exitScope
        { publications := [{ pk := 0, complete := false, pass_through := false,
                             publisher := none, repository_version := 5 }],
          publishedArtifacts := [], publishedMetadata := [],
          createdResources := [{ pk := 1, object_id := 0 }], nextPk := 2 }
        { pk := 0, complete := false, pass_through := false,
          publisher := none, repository_version := 5 } none).1.publications.filter
        (fun r => r.pk == 0)
      = [{ pk := 0, complete := true, pass_through := false,
           publisher := none, repository_version := 5 }] :=
  (publication_scope_commit
    { publications := [{ pk := 0, complete := false, pass_through := false,
                         publisher := none, repository_version := 5 }],
      publishedArtifacts := [], publishedMetadata := [],
      createdResources := [{ pk := 1, object_id := 0 }], nextPk := 2 }
    { pk := 0, complete := false, pass_through := false,
      publisher := none, repository_version := 5 } (by decide)).1

/-- C2.  A publication scope that exits with an exception deletes the
publication: afterwards the database holds no publication row with the
handle's primary key, no published artifact or metadata row pointing at it,
and no created-resource row whose `object_id` is it.  Nothing of the
partially built publication remains observable. -/
theorem publication_scope_abort_rollback (db : DBState) (pub : PublicationRow)
    (e : Nat) :
    (Publication.exitScope db pub (some e)).1.publications.filter
        (fun r => r.pk == pub.pk) = [] ∧
    (Publication.exitScope db pub (some e)).1.publishedArtifacts.filter
        (fun r => r.publication == pub.pk) = [] ∧
    (Publication.exitScope db pub (some e)).1.publishedMetadata.filter
        (fun r => r.publication == pub.pk) = [] ∧
    (Publication.exitScope db pub (some e)).1.createdResources.filter
        (fun r => r.object_id == pub.pk) = [] := by
  unfold Publication.exitScope Publication.delete
  refine ⟨?_, ?_, ?_, ?_⟩ <;>
  · rw [List.filter_eq_nil_iff]
    intro a ha
    rcases List.mem_filter.mp ha with ⟨_, hne⟩
    simp only [bne_iff_ne, ne_eq] at hne
    simp [hne]

/-- C9.  The scope-exit handler of a publication never suppresses an
exception: on every path it returns Python `None`, a falsy value, and on the
exception path the state it leaves behind is exactly the deleted one, so the
original exception propagates to the caller after the rollback. -/
theorem exit_never_suppresses_exception (db : DBState) (pub : PublicationRow) :
    (∀ exc, (Publication.exitScope db pub exc).2 = false) ∧
    (∀ e, (Publication.exitScope db pub (some e)).1 = Publication.delete db pub) := by
  constructor
  · intro exc
    cases exc <;> rfl
  · intro e
    rfl

/-- C5.  `Publication.create` runs as one atomic transition that appends a
publication row with `complete = false` carrying the requested
`repository_version`, `publisher` and `pass_through`, appends a
`CreatedResource` row referencing that publication, changes nothing else,
and returns the new publication handle. -/
theorem create_inserts_incomplete_publication (db : DBState)
    (rv : Nat) (publisher : Option Nat) (pt : Bool) :
    (Publication.create db rv publisher pt).1.complete = false ∧
    (Publication.create db rv publisher pt).1.pass_through = pt ∧
    (Publication.create db rv publisher pt).1.publisher = publisher ∧
    (Publication.create db rv publisher pt).1.repository_version = rv ∧
    (Publication.create db rv publisher pt).2.publications
      = db.publications ++ [(Publication.create db rv publisher pt).1] ∧
    (Publication.create db rv publisher pt).2.createdResources
      = db.createdResources
          ++ [{ pk := db.nextPk + 1,
                object_id := (Publication.create db rv publisher pt).1.pk }] ∧
    (Publication.create db rv publisher pt).2.publishedArtifacts
      = db.publishedArtifacts ∧
    (Publication.create db rv publisher pt).2.publishedMetadata
      = db.publishedMetadata :=
  ⟨rfl, rfl, rfl, rfl, rfl, rfl, rfl, rfl⟩

/-- C3.  An add that would duplicate an existing entry of the same
publication — same `(publication, content_artifact)` or
`(publication, relative_path)` for artifacts, same `(publication, file)` or
`(publication, relative_path)` for metadata — fails with `DuplicatePath`;
because the result is an error and not a new state, the second entry is
never persisted. -/
theorem duplicate_add_rejected (db : DBState)
    (rowA : PublishedArtifactRow) (rowM : PublishedMetadataRow) :
    ((∃ r ∈ db.publishedArtifacts, r.publication = rowA.publication ∧
        (r.content_artifact = rowA.content_artifact ∨
          r.relative_path = rowA.relative_path)) →
      PublishedArtifact.save db rowA = .error .DuplicatePath) ∧
    ((∃ r ∈ db.publishedMetadata, r.publication = rowM.publication ∧
        (r.file = rowM.file ∨ r.relative_path = rowM.relative_path)) →
      PublishedMetadata.save db rowM = .error .DuplicatePath) := by
  constructor
  · rintro ⟨r, hr, hpub, hdup⟩
    unfold PublishedArtifact.save
    rw [if_pos]
    refine List.any_eq_true.mpr ⟨r, hr, ?_⟩
    rcases hdup with h | h <;> simp [hpub, h]
  · rintro ⟨r, hr, hpub, hdup⟩
    unfold PublishedMetadata.save
    rw [if_pos]
    refine List.any_eq_true.mpr ⟨r, hr, ?_⟩
    rcases hdup with h | h <;> simp [hpub, h]

/-- Witness for `duplicate_add_rejected`: a database holding one artifact
row and one metadata row rejects a second artifact add that reuses the
artifact's `relative_path` and a second metadata add that reuses the
metadata's `file`. -/
theorem duplicate_add_rejected_witness :
    PublishedArtifact.save
        { publications := [], publishedMetadata := [], createdResources := [],
          nextPk := 9,
          publishedArtifacts := [{ pk := 3, publication := 0,
                                    content_artifact := 7,
                                    relative_path := "a/b" }] }
        { pk := 4, publication := 0, content_artifact := 8,
          relative_path := "a/b" } = .error .DuplicatePath ∧
    PublishedMetadata.save
        { publications := [], publishedArtifacts := [], createdResources := [],
          nextPk := 9,
          publishedMetadata := [{ pk := 5, publication := 0, file := "repomd",
                                   relative_path := "m/x" }] }
        { pk := 6, publication := 0, file := "repomd",
          relative_path := "m/y" } = .error .DuplicatePath := by
  constructor
  · exact (duplicate_add_rejected
      { publications := [], publishedMetadata := [], createdResources := [],
        nextPk := 9,
        publishedArtifacts := [{ pk := 3, publication := 0,
                                  content_artifact := 7,
                                  relative_path := "a/b" }] }
      { pk := 4, publication := 0, content_artifact := 8,
        relative_path := "a/b" }
      { pk := 6, publication := 0, file := "repomd",
        relative_path := "m/y" }).1 (by decide)
  · exact (duplicate_add_rejected
      { publications := [], publishedArtifacts := [], createdResources := [],
        nextPk := 9,
        publishedMetadata := [{ pk := 5, publication := 0, file := "repomd",
                                 relative_path := "m/x" }] }
      { pk := 4, publication := 0, content_artifact := 8,
        relative_path := "a/b" }
      { pk := 6, publication := 0, file := "repomd",
        relative_path := "m/y" }).2 (by decide)

/-- C10.  When a publication scope exits without an exception, the only
field the exit changes is `complete`: every row left under the handle's
primary key keeps the `pass_through`, `publisher` and `repository_version`
the handle had at scope entry, the rows under other keys are exactly the
ones that were there, and the artifact, metadata and created-resource
tables are untouched. -/
theorem scope_commit_frame (db : DBState) (pub : PublicationRow)
    (r' : PublicationRow)
    (hr' : r' ∈ (Publication.exitScope db pub none).1.publications)
    (hpk : r'.pk = pub.pk) :
    (r'.pass_through = pub.pass_through ∧ r'.publisher = pub.publisher ∧
      r'.repository_version = pub.repository_version ∧ r'.complete = true) ∧
    (Publication.exitScope db pub none).1.publications.filter
        (fun r => r.pk != pub.pk) = db.publications.filter (fun r => r.pk != pub.pk) ∧
    (Publication.exitScope db pub none).1.publishedArtifacts = db.publishedArtifacts ∧
    (Publication.exitScope db pub none).1.publishedMetadata = db.publishedMetadata ∧
    (Publication.exitScope db pub none).1.createdResources = db.createdResources := by
  have hred : (Publication.exitScope db pub none).1
      = Publication.savePublication db { pub with complete := true } := rfl
  rw [hred] at hr' ⊢
  rcases savePublication_frame db { pub with complete := true } with ⟨hf1, hf2, hf3⟩
  rw [savePublication_publications] at hr' ⊢
  have hkey : ({ pub with complete := true } : PublicationRow).pk = pub.pk := rfl
  simp only [hkey] at hr' ⊢
  by_cases hany : (db.publications.any fun r => r.pk == pub.pk) = true
  · rw [if_pos hany] at hr' ⊢
    refine ⟨?_, filter_ne_map db.publications { pub with complete := true } pub.pk rfl,
      hf1, hf2, hf3⟩
    rcases List.mem_map.mp hr' with ⟨a, _, ha⟩
    by_cases h : (a.pk == pub.pk) = true
    · rw [if_pos h] at ha
      rw [← ha]
      exact ⟨rfl, rfl, rfl, rfl⟩
    · rw [if_neg h] at ha
      rw [← ha] at hpk
      exact absurd hpk (by simpa using h)
  · rw [if_neg hany] at hr' ⊢
    refine ⟨?_, ?_, hf1, hf2, hf3⟩
    · rcases List.mem_append.mp hr' with h | h
      · exact absurd (List.any_eq_true.mpr ⟨r', h, by simp [hpk]⟩) hany
      · rcases List.mem_singleton.mp h with rfl
        exact ⟨rfl, rfl, rfl, rfl⟩
    · rw [List.filter_append]
      simp

/-- Witness for `scope_commit_frame` at a concrete one-row database. -/
theorem scope_commit_frame_witness :
    ((({ pk := 0, complete := true, pass_through := true,
         publisher := some 4, repository_version := 5 } : PublicationRow).pass_through
        = ({ pk := 0, complete := false, pass_through := true,
             publisher := some 4, repository_version := 5 } : PublicationRow).pass_through ∧
      ({ pk := 0, complete := true, pass_through := true,
         publisher := some 4, repository_version := 5 } : PublicationRow).publisher
        = ({ pk := 0, complete := false, pass_through := true,
             publisher := some 4, repository_version := 5 } : PublicationRow).publisher ∧
      ({ pk := 0, complete := true, pass_through := true,
         publisher := some 4, repository_version := 5 } : PublicationRow).repository_version
        = ({ pk := 0, complete := false, pass_through := true,
             publisher := some 4, repository_version := 5 } : PublicationRow).repository_version ∧
      ({ pk := 0, complete := true, pass_through := true,
         publisher := some 4, repository_version := 5 } : PublicationRow).complete = true) ∧
    (Publication.exitScope
        { publications := [{ pk := 0, complete := false, pass_through := true,
                             publisher := some 4, repository_version := 5 }],
          publishedArtifacts := [], publishedMetadata := [],
          createdResources := [], nextPk := 1 }
        { pk := 0, complete := false, pass_through := true,
          publisher := some 4, repository_version := 5 } none).1.publications.filter
        (fun r => r.pk != 0)
      = List.filter (fun r => r.pk != 0)
          [{ pk := 0, complete := false, pass_through := true,
             publisher := some 4, repository_version := 5 }] ∧
    (Publication.exitScope
        { publications := [{ pk := 0, complete := false, pass_through := true,
                             publisher := some 4, repository_version := 5 }],
          publishedArtifacts := [], publishedMetadata := [],
          createdResources := [], nextPk := 1 }
        { pk := 0, complete := false, pass_through := true,
          publisher := some 4, repository_version := 5 } none).1.publishedArtifacts
      = [] ∧
    (Publication.exitScope
        { publications := [{ pk := 0, complete := false, pass_through := true,
                             publisher := some 4, repository_version := 5 }],
          publishedArtifacts := [], publishedMetadata := [],
          createdResources := [], nextPk := 1 }
        { pk := 0, complete := false, pass_through := true,
          publisher := some 4, repository_version := 5 } none).1.publishedMetadata
      = [] ∧
    (Publication.exitScope
        { publications := [{ pk := 0, complete := false, pass_through := true,
                             publisher := some 4, repository_version := 5 }],
          publishedArtifacts := [], publishedMetadata := [],
          createdResources := [], nextPk := 1 }
        { pk := 0, complete := false, pass_through := true,
          publisher := some 4, repository_version := 5 } none).1.createdResources
      = []) :=
  scope_commit_frame
    { publications := [{ pk := 0, complete := false, pass_through := true,
                         publisher := some 4, repository_version := 5 }],
      publishedArtifacts := [], publishedMetadata := [],
      createdResources := [], nextPk := 1 }
    { pk := 0, complete := false, pass_through := true,
      publisher := some 4, repository_version := 5 }
    { pk := 0, complete := true, pass_through := true,
      publisher := some 4, repository_version := 5 }
    (by decide) (by decide)

/-- The publication table is untouched by a successful `PublishedArtifact`
save. -/
lemma save_artifact_ok_publications (db : DBState) (row : PublishedArtifactRow)
    (db2 : DBState) (hs : PublishedArtifact.save db row = .ok db2) :
    db2.publications = db.publications := by
  unfold PublishedArtifact.save at hs
  by_cases h : (db.publishedArtifacts.any fun r =>
      r.publication == row.publication
        && (r.content_artifact == row.content_artifact
              || r.relative_path == row.relative_path)) = true
  · rw [if_pos h] at hs
    exact absurd hs (by simp)
  · rw [if_neg h] at hs
    injection hs with h2
    rw [← h2]

/-- The publication table is untouched by a successful `PublishedMetadata`
save. -/
lemma save_metadata_ok_publications (db : DBState) (row : PublishedMetadataRow)
    (db2 : DBState) (hs : PublishedMetadata.save db row = .ok db2) :
    db2.publications = db.publications := by
  unfold PublishedMetadata.save at hs
  by_cases h : (db.publishedMetadata.any fun r =>
      r.publication == row.publication
        && (r.file == row.file || r.relative_path == row.relative_path)) = true
  · rw [if_pos h] at hs
    exact absurd hs (by simp)
  · rw [if_neg h] at hs
    injection hs with h2
    rw [← h2]

/-- C4.  Over every operation of the publication module, the `complete` flag
of a publication row is monotone: once `true` it never goes back to `false`,
and the only operation that turns it from `false` to `true` is the
successful exit of a scope whose handle carries that row's primary key.  In
particular the flag flips `false → true` at most once over the row's
lifetime. -/
theorem complete_flag_monotone (db : DBState) (op : PubOp)
    (hwf : WF db) (r r' : PublicationRow)
    (hr : r ∈ db.publications) (hr' : r' ∈ (applyOp db op).publications)
    (hpk : r'.pk = r.pk) :
    (r.complete = true → r'.complete = true) ∧
    (r.complete = false → r'.complete = true →
      ∃ pub, op = PubOp.scopeExit pub none ∧ pub.pk = r.pk) := by
  obtain ⟨hnodup, hlt⟩ := hwf
  have huniq : ∀ a ∈ db.publications, a.pk = r.pk → a = r := by
    intro a ha hak
    exact List.inj_on_of_nodup_map hnodup ha hr hak
  have triv : ∀ (P : Prop), r' = r →
      (r.complete = true → r'.complete = true) ∧
      (r.complete = false → r'.complete = true → P) := by
    intro P he
    constructor
    · intro h2
      rw [he]
      exact h2
    · intro h2 h3
      rw [he, h2] at h3
      exact Bool.noConfusion h3
  cases op with
  | create rv publisher pt =>
      have hpubs : (applyOp db (.create rv publisher pt)).publications
          = db.publications
              ++ [{ pk := db.nextPk, complete := false, pass_through := pt,
                    publisher := publisher, repository_version := rv }] := rfl
      rw [hpubs] at hr'
      rcases List.mem_append.mp hr' with h | h
      · exact triv _ (huniq r' h hpk)
      · rcases List.mem_singleton.mp h with rfl
        have hlt2 := hlt r hr
        rw [← hpk] at hlt2
        exact absurd hlt2 (by simp)
  | addArtifact row =>
      have hpubs : (applyOp db (.addArtifact row)).publications = db.publications := by
        show (match PublishedArtifact.save db row with
              | Except.ok db2 => db2
              | Except.error _ => db).publications = db.publications
        cases hs : PublishedArtifact.save db row with
        | ok db2 => exact save_artifact_ok_publications db row db2 hs
        | error e => rfl
      rw [hpubs] at hr'
      exact triv _ (huniq r' hr' hpk)
  | addMetadata row =>
      have hpubs : (applyOp db (.addMetadata row)).publications = db.publications := by
        show (match PublishedMetadata.save db row with
              | Except.ok db2 => db2
              | Except.error _ => db).publications = db.publications
        cases hs : PublishedMetadata.save db row with
        | ok db2 => exact save_metadata_ok_publications db row db2 hs
        | error e => rfl
      rw [hpubs] at hr'
      exact triv _ (huniq r' hr' hpk)
  | scopeExit pub exc =>
      cases exc with
      | some e =>
          have hpubs : (applyOp db (.scopeExit pub (some e))).publications
              = db.publications.filter (fun x => x.pk != pub.pk) := rfl
          rw [hpubs] at hr'
          exact triv _ (huniq r' (List.mem_of_mem_filter hr') hpk)
      | none =>
          have hred : (applyOp db (.scopeExit pub none)).publications
              = (Publication.savePublication db { pub with complete := true }).publications :=
            rfl
          rw [hred, savePublication_publications] at hr'
          have hkey : ({ pub with complete := true } : PublicationRow).pk = pub.pk := rfl
          simp only [hkey] at hr'
          by_cases hany : (db.publications.any fun x => x.pk == pub.pk) = true
          · rw [if_pos hany] at hr'
            rcases List.mem_map.mp hr' with ⟨a, ham, ha⟩
            by_cases h : (a.pk == pub.pk) = true
            · rw [if_pos h] at ha
              constructor
              · intro _
                rw [← ha]
              · intro _ _
                refine ⟨pub, rfl, ?_⟩
                rw [← hpk, ← ha]
            · rw [if_neg h] at ha
              exact triv _ (huniq r' (ha ▸ ham) hpk)
          · rw [if_neg hany] at hr'
            rcases List.mem_append.mp hr' with hmem | hmem
            · exact triv _ (huniq r' hmem hpk)
            · rcases List.mem_singleton.mp hmem with rfl
              constructor
              · intro _
                rfl
              · intro _ _
                exact ⟨pub, rfl, hpk⟩
  | deletePub pub =>
      have hpubs : (applyOp db (.deletePub pub)).publications
          = db.publications.filter (fun x => x.pk != pub.pk) := rfl
      rw [hpubs] at hr'
      exact triv _ (huniq r' (List.mem_of_mem_filter hr') hpk)

/-- Witness for `complete_flag_monotone`: a successful scope exit on a
one-row database flips that row's flag, and the theorem pins the operation
down as exactly that scope exit. -/
theorem complete_flag_monotone_witness :
    (({ pk := 0, complete := false, pass_through := false, publisher := none,
        repository_version := 5 } : PublicationRow).complete = true →
      ({ pk := 0, complete := true, pass_through := false, publisher := none,
         repository_version := 5 } : PublicationRow).complete = true) ∧
    (({ pk := 0, complete := false, pass_through := false, publisher := none,
        repository_version := 5 } : PublicationRow).complete = false →
      ({ pk := 0, complete := true, pass_through := false, publisher := none,
         repository_version := 5 } : PublicationRow).complete = true →
      ∃ pub, PubOp.scopeExit
          { pk := 0, complete := false, pass_through := false, publisher := none,
            repository_version := 5 } none = PubOp.scopeExit pub none ∧
        pub.pk = ({ pk := 0, complete := false, pass_through := false,
                    publisher := none, repository_version := 5 } : PublicationRow).pk) :=
  complete_flag_monotone
    { publications := [{ pk := 0, complete := false, pass_through := false,
                         publisher := none, repository_version := 5 }],
      publishedArtifacts := [], publishedMetadata := [],
      createdResources := [], nextPk := 1 }
    (PubOp.scopeExit
      { pk := 0, complete := false, pass_through := false, publisher := none,
        repository_version := 5 } none)
    (by constructor <;> decide)
    { pk := 0, complete := false, pass_through := false, publisher := none,
      repository_version := 5 }
    { pk := 0, complete := true, pass_through := false, publisher := none,
      repository_version := 5 }
    (by decide) (by decide) (by decide)

/-!
The tasking core.  The repository contains only the functional tests of the
resource-reservation scheduler and of the task lifecycle manager
(`test_tasking.py`); the implementation itself is not part of the source
tree, so the definitions below are modelled from the specification.
-/

/-- Modelled from the spec: reservation mode of a resource holder
(spec section 3, Resource), exclusive or shared. -/
inductive Mode where
  | exclusive
  | shared
deriving Repr, DecidableEq

/-- Modelled from the spec: the domain effect a task performs while running
(spec section 8's ordering scenario): update a resource's field to a value,
sync (read) a resource's field, or neither. -/
inductive TaskAct where
  | write (key : String) (v : Nat)
  | read (key : String)
  | idle
deriving Repr, DecidableEq

/-- Modelled from the spec: a task submitted to the Reservation Scheduler:
its id, the (resource key, mode) pairs it requires, and its effect. -/
structure Task where
  id : Nat
  resources : List (String × Mode)
  act : TaskAct
deriving Repr, DecidableEq

/-- Whether the task's effect writes resource key `k`. -/
def writesKey (t : Task) (k : String) : Bool :=
  match t.act with
  | .write k2 _ => k2 == k
  | _ => false

/-- Scheduler events, recorded in submission-trace order. -/
inductive Event where
  | dispatched (id : Nat)
  | finished (id : Nat)
deriving Repr, DecidableEq

/-- Modelled from the spec: the scheduler state.  `queue` is the FIFO
submission queue, `running` the dispatched tasks (whose holder entries are
their requested resources), `log` the trace of dispatch/finish events,
`store` the resource fields (association list) and `obs` the values the
read-tasks observed. -/
structure SchedState where
  queue : List Task
  running : List Task
  log : List Event
  store : List (String × Nat)
  obs : List (Nat × Option Nat)
deriving Repr, DecidableEq

/-- Association-list lookup for the resource store. -/
def lookupStore (store : List (String × Nat)) (k : String) : Option Nat :=
  match store with
  | [] => none
  | (k2, v) :: rest => if k2 == k then some v else lookupStore rest k

/-- Association-list update for the resource store. -/
def updateStore (store : List (String × Nat)) (k : String) (v : Nat) :
    List (String × Nat) :=
  match store with
  | [] => [(k, v)]
  | (k2, v2) :: rest =>
      if k2 == k then (k, v) :: rest else (k2, v2) :: updateStore rest k v

/-- The task holds the resource key `k` (in any mode). -/
def holdsKey (t : Task) (k : String) : Bool :=
  t.resources.any (fun r => r.1 == k)

/-- The task holds the resource key `k` exclusively. -/
def holdsExclusive (t : Task) (k : String) : Bool :=
  t.resources.any (fun r => r.1 == k && r.2 == Mode.exclusive)

/-- Modelled from the spec: compatibility of one requested `(key, mode)`
against the current holders: an exclusive request requires zero existing
holders of the key; a shared request requires no existing exclusive
holder. -/
def compatible (req : String × Mode) (running : List Task) : Bool :=
  match req.2 with
  | .exclusive => running.all (fun t => !(holdsKey t req.1))
  | .shared => running.all (fun t => !(holdsExclusive t req.1))

/-- A queued task is runnable when every requested pair is compatible with
the current holders. -/
def runnable (t : Task) (running : List Task) : Bool :=
  t.resources.all (fun req => compatible req running)

/-- Two resource requests conflict when they share a key and at least one
side requests it exclusively. -/
def conflictsWith (u t : Task) : Bool :=
  u.resources.any (fun a => t.resources.any (fun b =>
    a.1 == b.1 && (a.2 == Mode.exclusive || b.2 == Mode.exclusive)))

/-- The domain effect of a task, applied when it completes: an update writes
the store, a sync records the value it observes. -/
def applyAct (t : Task) (store : List (String × Nat))
    (obs : List (Nat × Option Nat)) :
    List (String × Nat) × List (Nat × Option Nat) :=
  match t.act with
  | .write k v => (updateStore store k v, obs)
  | .read k => (store, obs ++ [(t.id, lookupStore store k)])
  | .idle => (store, obs)

/-- Modelled from the spec: one scheduler transition.  `dispatch` evaluates
the queue in FIFO order: a task may start only if it is runnable against the
current holders and no earlier-queued task requests a conflicting resource
(dispatch fairness: later same-resource tasks wait behind earlier ones).
`finish` terminates a running task, applies its domain effect and releases
its holder entries. -/
inductive SchedStep : SchedState → SchedState → Prop where
  | dispatch (s : SchedState) (pre post : List Task) (t : Task)
      (hq : s.queue = pre ++ t :: post)
      (hrun : runnable t s.running = true)
      (hfair : ∀ u ∈ pre, conflictsWith u t = false) :
      SchedStep s { queue := pre ++ post, running := t :: s.running,
                    log := s.log ++ [Event.dispatched t.id],
                    store := s.store, obs := s.obs }
  | finish (s : SchedState) (r1 r2 : List Task) (t : Task)
      (hr : s.running = r1 ++ t :: r2) :
      SchedStep s { queue := s.queue, running := r1 ++ r2,
                    log := s.log ++ [Event.finished t.id],
                    store := (applyAct t s.store s.obs).1,
                    obs := (applyAct t s.store s.obs).2 }

/-- States reachable from a given scheduler state. -/
def SchedReachable : SchedState → SchedState → Prop :=
  Relation.ReflTransGen SchedStep

/-- The scheduler state right after a batch of tasks has been submitted in
order, with the resource store at its initial contents. -/
def initState (tasks : List Task) (store0 : List (String × Nat)) : SchedState :=
  { queue := tasks, running := [], log := [], store := store0, obs := [] }

section SchedulerLemmas

/-- Updating a key and reading it back yields the written value. -/
lemma lookup_update_self (st : List (String × Nat)) (k : String) (v : Nat) :
    lookupStore (updateStore st k v) k = some v := by
  induction st with
  | nil => simp [updateStore, lookupStore]
  | cons a rest ih =>
    rcases a with ⟨k2, v2⟩
    by_cases h : (k2 == k) = true
    · simp [updateStore, h, lookupStore]
    · simp [updateStore, h, lookupStore, ih]

/-- Updating one key leaves lookups of another key unchanged. -/
lemma lookup_update_other (st : List (String × Nat)) (k k2 : String) (v : Nat)
    (hne : k2 ≠ k) :
    lookupStore (updateStore st k2 v) k = lookupStore st k := by
  induction st with
  | nil => simp [updateStore, lookupStore, hne]
  | cons a rest ih =>
    rcases a with ⟨k3, v3⟩
    by_cases h : (k3 == k2) = true
    · have h3 : k3 = k2 := by simpa using h
      simp [updateStore, h, lookupStore, hne, h3]
    · simp [updateStore, h, lookupStore, ih]

/-- Removing one element that is neither endpoint of a distinguished
occurrence keeps that occurrence: one-marker version. -/
lemma remove_middle_one {α : Type} (b u : α) (hub : u ≠ b) :
    ∀ (l2 l3 pre post : List α), l2 ++ b :: l3 = pre ++ u :: post →
      ∃ m2 m3, pre ++ post = m2 ++ b :: m3 := by
  intro l2
  induction l2 with
  | nil =>
    intro l3 pre post h
    cases pre with
    | nil =>
      simp at h
      exact absurd h.1.symm hub
    | cons p pre2 =>
      simp at h
      rcases h with ⟨h1, h2⟩
      exact ⟨[], pre2 ++ post, by simp [← h1]⟩
  | cons a t ih =>
    intro l3 pre post h
    cases pre with
    | nil =>
      simp at h
      rcases h with ⟨h1, h2⟩
      exact ⟨t, l3, by simp [← h2]⟩
    | cons p pre2 =>
      simp at h
      rcases h with ⟨h1, h2⟩
      rcases ih l3 pre2 post h2 with ⟨m2, m3, hm⟩
      exact ⟨p :: m2, m3, by simp [hm]⟩

/-- Removing one element distinct from both markers keeps a two-marker
decomposition. -/
lemma remove_middle_two {α : Type} (a b u : α) (hua : u ≠ a) (hub : u ≠ b) :
    ∀ (l1 l2 l3 pre post : List α),
      l1 ++ a :: (l2 ++ b :: l3) = pre ++ u :: post →
      ∃ m1 m2 m3, pre ++ post = m1 ++ a :: (m2 ++ b :: m3) := by
  intro l1
  induction l1 with
  | nil =>
    intro l2 l3 pre post h
    cases pre with
    | nil =>
      simp at h
      exact absurd h.1.symm hua
    | cons p pre2 =>
      simp at h
      rcases h with ⟨h1, h2⟩
      rcases remove_middle_one b u hub l2 l3 pre2 post h2 with ⟨m2, m3, hm⟩
      exact ⟨[], m2, m3, by simp [← h1, hm]⟩
  | cons c t ih =>
    intro l2 l3 pre post h
    cases pre with
    | nil =>
      simp at h
      rcases h with ⟨h1, h2⟩
      exact ⟨t, l2, l3, by simp [← h2]⟩
    | cons p pre2 =>
      simp at h
      rcases h with ⟨h1, h2⟩
      rcases ih l2 l3 pre2 post h2 with ⟨m1, m2, m3, hm⟩
      exact ⟨c :: m1, m2, m3, by simp [← h1, hm]⟩

/-- In a list whose images under `f` are pairwise distinct, the
decomposition around a given element is unique. -/
lemma unique_decomp {α β : Type} (f : α → β) (b : α) :
    ∀ (pre post l1 l3 : List α),
      (((pre ++ b :: post).map f)).Nodup →
      pre ++ b :: post = l1 ++ b :: l3 →
      pre = l1 ∧ post = l3 := by
  intro pre
  induction pre with
  | nil =>
    intro post l1 l3 hnd h
    cases l1 with
    | nil =>
      simp at h
      exact ⟨rfl, h⟩
    | cons x l1' =>
      simp at h
      rcases h with ⟨h1, h2⟩
      exfalso
      simp only [List.nil_append, List.map_cons] at hnd
      have hmem : b ∈ post := by
        rw [h2]
        exact List.mem_append.mpr (Or.inr (List.mem_cons_self b l3))
      have hfm : f b ∈ post.map f := List.mem_map.mpr ⟨b, hmem, rfl⟩
      exact (List.nodup_cons.mp hnd).1 hfm
  | cons p pre' ih =>
    intro post l1 l3 hnd h
    cases l1 with
    | nil =>
      simp at h
      rcases h with ⟨h1, h2⟩
      exfalso
      subst h1
      rw [List.cons_append, List.map_cons] at hnd
      have hmem : p ∈ pre' ++ p :: post :=
        List.mem_append.mpr (Or.inr (List.mem_cons_self p post))
      have hfm : f p ∈ (pre' ++ p :: post).map f := List.mem_map.mpr ⟨p, hmem, rfl⟩
      exact (List.nodup_cons.mp hnd).1 hfm
    | cons x l1' =>
      rw [List.cons_append, List.cons_append] at h
      injection h with h1 h2
      have hnd' : (((pre' ++ b :: post).map f)).Nodup := by
        rw [List.cons_append, List.map_cons] at hnd
        exact (List.nodup_cons.mp hnd).2
      rcases ih post l1' l3 hnd' h2 with ⟨ha, hb⟩
      exact ⟨by rw [h1, ha], hb⟩

/-- Two tasks that both request the same key exclusively conflict. -/
lemma conflicts_of_exclusive (A B : Task) (k : String)
    (hA : (k, Mode.exclusive) ∈ A.resources)
    (hB : (k, Mode.exclusive) ∈ B.resources) :
    conflictsWith A B = true := by
  unfold conflictsWith
  refine List.any_eq_true.mpr ⟨(k, Mode.exclusive), hA, ?_⟩
  refine List.any_eq_true.mpr ⟨(k, Mode.exclusive), hB, ?_⟩
  simp

/-- A task requesting a key in any mode holds that key once running. -/
lemma holdsKey_of_mem (t : Task) (k : String) (m : Mode)
    (h : (k, m) ∈ t.resources) : holdsKey t k = true :=
  List.any_eq_true.mpr ⟨(k, m), h, by simp⟩

/-- An exclusive request is not runnable while some running task holds the
key. -/
lemma not_runnable_of_held (B A : Task) (running : List Task) (k : String)
    (hBk : (k, Mode.exclusive) ∈ B.resources) (hAr : A ∈ running)
    (hAk : holdsKey A k = true) (hrun : runnable B running = true) : False := by
  have h1 : running.all (fun t => !(holdsKey t k)) = true :=
    List.all_eq_true.mp hrun (k, Mode.exclusive) hBk
  have h2 : (!(holdsKey A k)) = true := List.all_eq_true.mp h1 A hAr
  rw [hAk] at h2
  exact Bool.noConfusion h2

/-- A task whose effect does not write key `k` leaves `k`'s stored value
unchanged when it finishes. -/
lemma applyAct_store_preserved (t : Task) (store : List (String × Nat))
    (obs : List (Nat × Option Nat)) (k : String) (hw : writesKey t k = false) :
    lookupStore (applyAct t store obs).1 k = lookupStore store k := by
  unfold writesKey at hw
  cases hact : t.act with
  | write k2 v =>
      rw [hact] at hw
      have hne : k2 ≠ k := by simpa using hw
      simp only [applyAct, hact]
      exact lookup_update_other store k k2 v hne
  | read k2 => simp [applyAct, hact]
  | idle => simp [applyAct, hact]

end SchedulerLemmas


/-- The core inductive invariant behind the exclusive-reservation ordering
theorem: the queue shrinks within the submitted batch, running tasks come
from the batch and were logged as dispatched, task `B` is dispatched only
after task `A` finished, and while `A` is unfinished it is running or still
queued with `A` ahead of `B`. -/
def OrderInvCore (tasks : List Task) (A B : Task) (s : SchedState) : Prop :=
  List.Sublist s.queue tasks ∧
  (∀ t ∈ s.running, t ∈ tasks) ∧
  (∀ t ∈ s.running, Event.dispatched t.id ∈ s.log) ∧
  (Event.dispatched B.id ∈ s.log → Event.finished A.id ∈ s.log) ∧
  (Event.finished A.id ∉ s.log →
    (A ∈ s.running ∨ ∃ l1 l2 l3, s.queue = l1 ++ A :: (l2 ++ B :: l3)))

/-- The observation half of the invariant: once `A` finished, the store
holds `A`'s written value, and every observation recorded for `B` is that
value. -/
def OrderInvObs (A B : Task) (k : String) (v2 : Nat) (s : SchedState) : Prop :=
  (Event.finished A.id ∈ s.log → lookupStore s.store k = some v2) ∧
  (∀ v, (B.id, v) ∈ s.obs → v = some v2)

/-- The core invariant holds in the freshly submitted state. -/
lemma orderInvCore_init (tasks : List Task) (store0 : List (String × Nat))
    (A B : Task)
    (horder : ∃ l1 l2 l3, tasks = l1 ++ A :: (l2 ++ B :: l3)) :
    OrderInvCore tasks A B (initState tasks store0) := by
  refine ⟨List.Sublist.refl tasks, ?_, ?_, ?_, ?_⟩
  · intro t ht
    exact absurd ht (List.not_mem_nil t)
  · intro t ht
    exact absurd ht (List.not_mem_nil t)
  · intro h
    exact absurd h (List.not_mem_nil _)
  · intro _
    exact Or.inr horder

/-- The observation invariant holds in the freshly submitted state. -/
lemma orderInvObs_init (tasks : List Task) (store0 : List (String × Nat))
    (A B : Task) (k : String) (v2 : Nat) :
    OrderInvObs A B k v2 (initState tasks store0) := by
  constructor
  · intro h
    exact absurd h (List.not_mem_nil _)
  · intro v hv
    exact absurd hv (List.not_mem_nil _)

/-- The core invariant is preserved by every scheduler step.  Only the
exclusive reservations of `A` and `B` matter here; the tasks' domain
effects are arbitrary. -/
lemma orderInvCore_step (tasks : List Task) (A B : Task) (k : String)
    (hid : (tasks.map Task.id).Nodup)
    (hA : A ∈ tasks) (hB : B ∈ tasks)
    (hAk : (k, Mode.exclusive) ∈ A.resources)
    (hBk : (k, Mode.exclusive) ∈ B.resources)
    (s s2 : SchedState) (hstep : SchedStep s s2)
    (hinv : OrderInvCore tasks A B s) :
    OrderInvCore tasks A B s2 := by
  obtain ⟨hsub, hrunmem, hrdisp, hmain, hphase⟩ := hinv
  have htaskuniq : ∀ x ∈ tasks, ∀ y ∈ tasks, x.id = y.id → x = y :=
    fun x hx y hy hxy => List.inj_on_of_nodup_map hid hx hy hxy
  cases hstep with
  | dispatch pre post t hq hrun hfair =>
      have htq : t ∈ s.queue := by
        rw [hq]
        exact List.mem_append.mpr (Or.inr (List.mem_cons_self t post))
      have htmem : t ∈ tasks := hsub.subset htq
      have hqnodup : ((s.queue.map Task.id)).Nodup :=
        List.Nodup.sublist (List.Sublist.map Task.id hsub) hid
      have hkey : t = B → Event.finished A.id ∉ s.log → False := by
        intro htB hfin
        rcases hphase hfin with hArun | ⟨l1, l2, l3, hdec⟩
        · exact not_runnable_of_held t A s.running k (htB ▸ hBk) hArun
            (holdsKey_of_mem A k Mode.exclusive hAk) hrun
        · subst htB
          have heq : pre ++ t :: post = (l1 ++ A :: l2) ++ t :: l3 := by
            rw [← hq, hdec]
            simp
          have hnd2 : (((pre ++ t :: post).map Task.id)).Nodup := by
            rw [← hq]
            exact hqnodup
          rcases unique_decomp Task.id t pre post (l1 ++ A :: l2) l3 hnd2 heq with
            ⟨hpre, _⟩
          have hApre : A ∈ pre := by
            rw [hpre]
            exact List.mem_append.mpr (Or.inr (List.mem_cons_self A l2))
          have := hfair A hApre
          rw [conflicts_of_exclusive A t k hAk hBk] at this
          exact Bool.noConfusion this
      refine ⟨?_, ?_, ?_, ?_, ?_⟩
      · have h1 : List.Sublist (pre ++ post) (pre ++ t :: post) :=
          List.Sublist.append_left (List.sublist_cons_self t post) pre
        exact h1.trans (hq ▸ hsub)
      · intro x hx
        rcases List.mem_cons.mp hx with rfl | hx2
        · exact htmem
        · exact hrunmem x hx2
      · intro x hx
        rcases List.mem_cons.mp hx with rfl | hx2
        · exact List.mem_append.mpr (Or.inr (List.mem_singleton.mpr rfl))
        · exact List.mem_append.mpr (Or.inl (hrdisp x hx2))
      · intro hd
        rcases List.mem_append.mp hd with hold | hnew
        · exact List.mem_append.mpr (Or.inl (hmain hold))
        · have hid2 : t.id = B.id := by
            have := List.mem_singleton.mp hnew
            injection this.symm
          have htB : t = B := htaskuniq t htmem B hB hid2
          by_cases hfin : Event.finished A.id ∈ s.log
          · exact List.mem_append.mpr (Or.inl hfin)
          · exact absurd (hkey htB) (by intro h2; exact h2 hfin)
      · intro hfin2
        have hfin : Event.finished A.id ∉ s.log := by
          intro h
          exact hfin2 (List.mem_append.mpr (Or.inl h))
        rcases hphase hfin with hArun | ⟨l1, l2, l3, hdec⟩
        · exact Or.inl (List.mem_cons_of_mem t hArun)
        · by_cases htA : t = A
          · exact Or.inl (htA ▸ List.mem_cons_self t s.running)
          · by_cases htB : t = B
            · exact absurd (hkey htB) (by intro h2; exact h2 hfin)
            · have h := remove_middle_two A B t htA htB l1 l2 l3 pre post
                (hdec.symm.trans hq)
              rcases h with ⟨m1, m2, m3, hm⟩
              exact Or.inr ⟨m1, m2, m3, hm⟩
  | finish r1 r2 t hr =>
      have htrun : t ∈ s.running := by
        rw [hr]
        exact List.mem_append.mpr (Or.inr (List.mem_cons_self t r2))
      have hsubrun : ∀ x, x ∈ r1 ++ r2 → x ∈ s.running := by
        intro x hx
        rw [hr]
        rcases List.mem_append.mp hx with h | h
        · exact List.mem_append.mpr (Or.inl h)
        · exact List.mem_append.mpr (Or.inr (List.mem_cons_of_mem t h))
      refine ⟨hsub, ?_, ?_, ?_, ?_⟩
      · intro x hx
        exact hrunmem x (hsubrun x hx)
      · intro x hx
        exact List.mem_append.mpr (Or.inl (hrdisp x (hsubrun x hx)))
      · intro hd
        rcases List.mem_append.mp hd with hold | hnew
        · exact List.mem_append.mpr (Or.inl (hmain hold))
        · exact Event.noConfusion (List.mem_singleton.mp hnew)
      · intro hfin2
        have htA : t.id ≠ A.id := by
          intro h
          exact hfin2 (List.mem_append.mpr (Or.inr (by simp [h])))
        have hfin : Event.finished A.id ∉ s.log := by
          intro h
          exact hfin2 (List.mem_append.mpr (Or.inl h))
        rcases hphase hfin with hArun | hqdec
        · left
          rw [hr] at hArun
          have hAt : A ≠ t := by
            intro he
            exact htA (by rw [← he])
          rcases List.mem_append.mp hArun with h | h
          · exact List.mem_append.mpr (Or.inl h)
          · rcases List.mem_cons.mp h with he | h2
            · exact absurd he hAt
            · exact List.mem_append.mpr (Or.inr h2)
        · exact Or.inr hqdec

/-- The observation invariant is preserved by every scheduler step, given
the core invariant, when `A` writes `v2` to key `k`, `B` reads `k`, and no
other submitted task writes `k`. -/
lemma orderInvObs_step (tasks : List Task) (A B : Task) (k : String) (v2 : Nat)
    (hid : (tasks.map Task.id).Nodup)
    (hA : A ∈ tasks) (hB : B ∈ tasks)
    (hAw : A.act = TaskAct.write k v2)
    (hBr : B.act = TaskAct.read k)
    (hothers : ∀ t ∈ tasks, t.id ≠ A.id → writesKey t k = false)
    (s s2 : SchedState) (hstep : SchedStep s s2)
    (hcore : OrderInvCore tasks A B s)
    (hinv : OrderInvObs A B k v2 s) :
    OrderInvObs A B k v2 s2 := by
  obtain ⟨_, hrunmem, hrdisp, hmain, _⟩ := hcore
  obtain ⟨hstore, hobs⟩ := hinv
  have htaskuniq : ∀ x ∈ tasks, ∀ y ∈ tasks, x.id = y.id → x = y :=
    fun x hx y hy hxy => List.inj_on_of_nodup_map hid hx hy hxy
  cases hstep with
  | dispatch pre post t hq hrun hfair =>
      constructor
      · intro h
        rcases List.mem_append.mp h with hold | hnew
        · exact hstore hold
        · exact Event.noConfusion (List.mem_singleton.mp hnew)
      · exact hobs
  | finish r1 r2 t hr =>
      have htrun : t ∈ s.running := by
        rw [hr]
        exact List.mem_append.mpr (Or.inr (List.mem_cons_self t r2))
      have htmem : t ∈ tasks := hrunmem t htrun
      constructor
      · intro h
        rcases List.mem_append.mp h with hold | hnew
        · by_cases htid : t.id = A.id
          · have htA : t = A := htaskuniq t htmem A hA htid
            subst htA
            have hup : (applyAct t s.store s.obs).1 = updateStore s.store k v2 := by
              simp [applyAct, hAw]
            rw [hup]
            exact lookup_update_self s.store k v2
          · rw [applyAct_store_preserved t s.store s.obs k
              (hothers t htmem htid)]
            exact hstore hold
        · have hid2 : t.id = A.id := by
            injection (List.mem_singleton.mp hnew).symm
          have htA : t = A := htaskuniq t htmem A hA hid2
          subst htA
          have hup : (applyAct t s.store s.obs).1 = updateStore s.store k v2 := by
            simp [applyAct, hAw]
          rw [hup]
          exact lookup_update_self s.store k v2
      · intro v hv
        cases hact : t.act with
        | write k2 w =>
            have hob : (applyAct t s.store s.obs).2 = s.obs := by
              simp [applyAct, hact]
            rw [hob] at hv
            exact hobs v hv
        | idle =>
            have hob : (applyAct t s.store s.obs).2 = s.obs := by
              simp [applyAct, hact]
            rw [hob] at hv
            exact hobs v hv
        | read k2 =>
            have hobs2 : (applyAct t s.store s.obs).2
                = s.obs ++ [(t.id, lookupStore s.store k2)] := by
              simp [applyAct, hact]
            rw [hobs2] at hv
            rcases List.mem_append.mp hv with hold | hnew
            · exact hobs v hold
            · have hpair := List.mem_singleton.mp hnew
              have hid2 : B.id = t.id := congrArg Prod.fst hpair
              have htB : t = B := htaskuniq t htmem B hB hid2.symm
              subst htB
              have hk2 : k2 = k := by
                rw [hBr] at hact
                injection hact.symm
              have hvv : v = lookupStore s.store k2 := congrArg Prod.snd hpair
              have hdispB : Event.dispatched t.id ∈ s.log := hrdisp t htrun
              have hfinA : Event.finished A.id ∈ s.log := hmain hdispB
              rw [hvv, hk2]
              exact hstore hfinA

/-- C6.  For two tasks that both request an exclusive reservation on the
same resource key, the later-submitted task runs strictly after the earlier
one: in every reachable scheduler state, `B` can only have been dispatched
after `A`'s finish was already logged, whatever the tasks do while running.
Consequently, when `A` updates the resource's field to `v2` and `B`
(submitted after `A`) syncs from it — and no other submitted task writes
that key — every value `B` observes is `v2`. -/
theorem exclusive_reservation_ordering
    (tasks : List Task) (store0 : List (String × Nat)) (A B : Task)
    (k : String)
    (hid : (tasks.map Task.id).Nodup)
    (horder : ∃ l1 l2 l3, tasks = l1 ++ A :: (l2 ++ B :: l3))
    (hAk : (k, Mode.exclusive) ∈ A.resources)
    (hBk : (k, Mode.exclusive) ∈ B.resources)
    (s : SchedState) (hreach : SchedReachable (initState tasks store0) s) :
    (Event.dispatched B.id ∈ s.log → Event.finished A.id ∈ s.log) ∧
    (∀ v2, A.act = TaskAct.write k v2 → B.act = TaskAct.read k →
      (∀ t ∈ tasks, t.id ≠ A.id → writesKey t k = false) →
      ∀ v, (B.id, v) ∈ s.obs → v = some v2) := by
  have hA : A ∈ tasks := by
    rcases horder with ⟨l1, l2, l3, rfl⟩
    exact List.mem_append.mpr (Or.inr (List.mem_cons_self A _))
  have hB : B ∈ tasks := by
    rcases horder with ⟨l1, l2, l3, rfl⟩
    refine List.mem_append.mpr (Or.inr (List.mem_cons_of_mem A ?_))
    exact List.mem_append.mpr (Or.inr (List.mem_cons_self B l3))
  have hcore : OrderInvCore tasks A B s := by
    induction hreach with
    | refl => exact orderInvCore_init tasks store0 A B horder
    | tail hab hbc ih =>
        exact orderInvCore_step tasks A B k hid hA hB hAk hBk _ _ hbc ih
  refine ⟨hcore.2.2.2.1, ?_⟩
  intro v2 hAw hBr hothers
  have hboth : OrderInvCore tasks A B s ∧ OrderInvObs A B k v2 s := by
    clear hcore
    induction hreach with
    | refl =>
        exact ⟨orderInvCore_init tasks store0 A B horder,
          orderInvObs_init tasks store0 A B k v2⟩
    | tail hab hbc ih =>
        exact ⟨orderInvCore_step tasks A B k hid hA hB hAk hBk _ _ hbc ih.1,
          orderInvObs_step tasks A B k v2 hid hA hB hAw hBr hothers
            _ _ hbc ih.1 ih.2⟩
  exact hboth.2.2

/-- Witness for `exclusive_reservation_ordering`: the two-task scenario of
the multi-resource locking test (an update of the remote's url, then a
sync), run to completion. -/
theorem exclusive_reservation_ordering_witness :
    (Event.dispatched 2 ∈
        [Event.dispatched 1, Event.finished 1, Event.dispatched 2,
          Event.finished 2] →
      Event.finished 1 ∈
        [Event.dispatched 1, Event.finished 1, Event.dispatched 2,
          Event.finished 2]) ∧
    (∀ v2, ({ id := 1, resources := [("r", Mode.exclusive)],
              act := TaskAct.write "r" 42 } : Task).act = TaskAct.write "r" v2 →
      ({ id := 2, resources := [("r", Mode.exclusive)],
         act := TaskAct.read "r" } : Task).act = TaskAct.read "r" →
      (∀ t ∈ [({ id := 1, resources := [("r", Mode.exclusive)],
                 act := TaskAct.write "r" 42 } : Task),
              { id := 2, resources := [("r", Mode.exclusive)],
                act := TaskAct.read "r" }], t.id ≠ 1 → writesKey t "r" = false) →
      ∀ v, ((2 : Nat), v) ∈ [((2 : Nat), some (42 : Nat))] → v = some v2) := by
  have h1 : SchedStep
      (initState
        [{ id := 1, resources := [("r", Mode.exclusive)],
           act := TaskAct.write "r" 42 },
         { id := 2, resources := [("r", Mode.exclusive)],
           act := TaskAct.read "r" }] [])
      { queue := [{ id := 2, resources := [("r", Mode.exclusive)],
                    act := TaskAct.read "r" }],
        running := [{ id := 1, resources := [("r", Mode.exclusive)],
                      act := TaskAct.write "r" 42 }],
        log := [Event.dispatched 1], store := [], obs := [] } :=
    SchedStep.dispatch _ []
      [{ id := 2, resources := [("r", Mode.exclusive)],
         act := TaskAct.read "r" }]
      { id := 1, resources := [("r", Mode.exclusive)],
        act := TaskAct.write "r" 42 }
      rfl (by decide) (by intro u hu; exact absurd hu (List.not_mem_nil u))
  have h2 : SchedStep
      { queue := [{ id := 2, resources := [("r", Mode.exclusive)],
                    act := TaskAct.read "r" }],
        running := [{ id := 1, resources := [("r", Mode.exclusive)],
                      act := TaskAct.write "r" 42 }],
        log := [Event.dispatched 1], store := [], obs := [] }
      { queue := [{ id := 2, resources := [("r", Mode.exclusive)],
                    act := TaskAct.read "r" }],
        running := [],
        log := [Event.dispatched 1, Event.finished 1],
        store := [("r", 42)], obs := [] } :=
    SchedStep.finish _ [] []
      { id := 1, resources := [("r", Mode.exclusive)],
        act := TaskAct.write "r" 42 } rfl
  have h3 : SchedStep
      { queue := [{ id := 2, resources := [("r", Mode.exclusive)],
                    act := TaskAct.read "r" }],
        running := [],
        log := [Event.dispatched 1, Event.finished 1],
        store := [("r", 42)], obs := [] }
      { queue := [],
        running := [{ id := 2, resources := [("r", Mode.exclusive)],
                      act := TaskAct.read "r" }],
        log := [Event.dispatched 1, Event.finished 1, Event.dispatched 2],
        store := [("r", 42)], obs := [] } :=
    SchedStep.dispatch _ [] []
      { id := 2, resources := [("r", Mode.exclusive)],
        act := TaskAct.read "r" }
      rfl (by decide) (by intro u hu; exact absurd hu (List.not_mem_nil u))
  have h4 : SchedStep
      { queue := [],
        running := [{ id := 2, resources := [("r", Mode.exclusive)],
                      act := TaskAct.read "r" }],
        log := [Event.dispatched 1, Event.finished 1, Event.dispatched 2],
        store := [("r", 42)], obs := [] }
      { queue := [], running := [],
        log := [Event.dispatched 1, Event.finished 1, Event.dispatched 2,
                Event.finished 2],
        store := [("r", 42)], obs := [((2 : Nat), some (42 : Nat))] } :=
    SchedStep.finish _ [] []
      { id := 2, resources := [("r", Mode.exclusive)],
        act := TaskAct.read "r" } rfl
  have hreach : SchedReachable
      (initState
        [{ id := 1, resources := [("r", Mode.exclusive)],
           act := TaskAct.write "r" 42 },
         { id := 2, resources := [("r", Mode.exclusive)],
           act := TaskAct.read "r" }] [])
      { queue := [], running := [],
        log := [Event.dispatched 1, Event.finished 1, Event.dispatched 2,
                Event.finished 2],
        store := [("r", 42)], obs := [((2 : Nat), some (42 : Nat))] } :=
    Relation.ReflTransGen.tail
      (Relation.ReflTransGen.tail
        (Relation.ReflTransGen.tail
          (Relation.ReflTransGen.tail Relation.ReflTransGen.refl h1) h2) h3) h4
  exact exclusive_reservation_ordering
    [{ id := 1, resources := [("r", Mode.exclusive)],
       act := TaskAct.write "r" 42 },
     { id := 2, resources := [("r", Mode.exclusive)],
       act := TaskAct.read "r" }] []
    { id := 1, resources := [("r", Mode.exclusive)],
      act := TaskAct.write "r" 42 }
    { id := 2, resources := [("r", Mode.exclusive)],
      act := TaskAct.read "r" }
    "r" (by decide) ⟨[], [], [], rfl⟩ (by decide) (by decide) _ hreach

/-- Modelled from the spec: the states of the Task Lifecycle Manager's
state machine (spec 4.2): `waiting → running → completed | failed`, with
cancellation `waiting → canceled` and `running → canceling → canceled`. -/
inductive TaskState where
  | waiting
  | running
  | canceling
  | completed
  | failed
  | canceled
deriving Repr, DecidableEq

/-- The terminal states of the task state machine. -/
def TaskState.isTerminal : TaskState → Bool
  | .completed => true
  | .failed => true
  | .canceled => true
  | _ => false

/-- Modelled from the spec: a task record of the lifecycle manager — id,
state and the completion timestamp `finished_at`, which is null until the
worker reports completion or failure. -/
structure TaskRecord where
  id : Nat
  state : TaskState
  finished_at : Option Nat
deriving Repr, DecidableEq

/-- Error taxonomy of the lifecycle manager (spec section 7). -/
inductive TaskError where
  | NotFound
  | Conflict
deriving Repr, DecidableEq

/-- Modelled from the spec: the lifecycle manager's store — task records and
CreatedResource entries `(pk, task_id)` owned by tasks. -/
structure TaskDB where
  tasks : List TaskRecord
  createdResources : List (Nat × Nat)
deriving Repr, DecidableEq

/-- Modelled from the spec: `delete(task_id)` of the Task Lifecycle Manager
(spec 4.2): unknown id fails with `NotFound`; a task in state running or
canceling fails with `Conflict` (a task must never be deleted while actively
executing); waiting and terminal tasks are deleted together with their
CreatedResource entries.  An error returns no new state, so the store is
untouched. -/
def deleteTask (db : TaskDB) (task_id : Nat) : Except TaskError TaskDB :=
  match db.tasks.find? (fun t => t.id == task_id) with
  | none => .error .NotFound
  | some t =>
      if t.state == TaskState.running || t.state == TaskState.canceling then
        .error .Conflict
      else
        .ok { tasks := db.tasks.filter (fun x => x.id != task_id),
              createdResources :=
                db.createdResources.filter (fun c => c.2 != task_id) }

/-- Modelled from the spec: the transitions of one task record (spec 4.2):
scheduler dispatch, worker outcome (completed or failed, stamping
`finished_at`), cancellation of a waiting task, the cooperative cancel
request on a running task, and the worker acknowledging the flag by moving
from canceling to canceled (with no completion timestamp written). -/
inductive TaskStep : TaskRecord → TaskRecord → Prop where
  | dispatch (t : TaskRecord) (h : t.state = TaskState.waiting) :
      TaskStep t { t with state := TaskState.running }
  | complete (t : TaskRecord) (time : Nat) (h : t.state = TaskState.running) :
      TaskStep t { t with state := TaskState.completed, finished_at := some time }
  | fail (t : TaskRecord) (time : Nat) (h : t.state = TaskState.running) :
      TaskStep t { t with state := TaskState.failed, finished_at := some time }
  | cancelWaiting (t : TaskRecord) (h : t.state = TaskState.waiting) :
      TaskStep t { t with state := TaskState.canceled }
  | cancelRunning (t : TaskRecord) (h : t.state = TaskState.running) :
      TaskStep t { t with state := TaskState.canceling }
  | ackCancel (t : TaskRecord) (h : t.state = TaskState.canceling) :
      TaskStep t { t with state := TaskState.canceled }

/-- C7.  `delete` on a task found in state running or canceling fails with
`Conflict` — and, the result being an error, the store is unchanged — while
`delete` on a task found in state waiting or in any terminal state succeeds
and leaves neither the task record nor any of its CreatedResource
entries. -/
theorem delete_task_spec (db : TaskDB) (t : TaskRecord)
    (ht : db.tasks.find? (fun x => x.id == t.id) = some t) :
    ((t.state = TaskState.running ∨ t.state = TaskState.canceling) →
      deleteTask db t.id = .error .Conflict) ∧
    ((t.state = TaskState.waiting ∨ t.state.isTerminal = true) →
      ∃ db2, deleteTask db t.id = .ok db2 ∧
        db2.tasks.filter (fun x => x.id == t.id) = [] ∧
        db2.createdResources.filter (fun c => c.2 == t.id) = []) := by
  constructor
  · intro hstate
    unfold deleteTask
    rw [ht]
    rcases hstate with h | h <;> simp [h]
  · intro hstate
    have hcond : (t.state == TaskState.running
        || t.state == TaskState.canceling) = false := by
      rcases hstate with h | h
      · simp [h]
      · cases hs : t.state <;> simp_all [TaskState.isTerminal]
    have heq : deleteTask db t.id
        = Except.ok
            { tasks := db.tasks.filter (fun x => x.id != t.id),
              createdResources := db.createdResources.filter (fun c => c.2 != t.id) } := by
      unfold deleteTask
      rw [ht]
      simp [hcond]
    refine ⟨_, heq, ?_, ?_⟩
    · rw [List.filter_eq_nil_iff]
      intro a ha
      rcases List.mem_filter.mp ha with ⟨_, hne⟩
      simp only [bne_iff_ne, ne_eq] at hne
      simp [hne]
    · rw [List.filter_eq_nil_iff]
      intro a ha
      rcases List.mem_filter.mp ha with ⟨_, hne⟩
      simp only [bne_iff_ne, ne_eq] at hne
      simp [hne]

/-- Witness for `delete_task_spec`: deleting a running task is rejected
with `Conflict`, deleting a waiting task succeeds and scrubs its
CreatedResource entries. -/
theorem delete_task_spec_witness :
    deleteTask
        { tasks := [{ id := 1, state := TaskState.running, finished_at := none },
                    { id := 2, state := TaskState.waiting, finished_at := none }],
          createdResources := [(7, 2)] } 1 = .error .Conflict ∧
    (∃ db2, deleteTask
        { tasks := [{ id := 1, state := TaskState.running, finished_at := none },
                    { id := 2, state := TaskState.waiting, finished_at := none }],
          createdResources := [(7, 2)] } 2 = .ok db2 ∧
      db2.tasks.filter (fun x => x.id == 2) = [] ∧
      db2.createdResources.filter (fun c => c.2 == 2) = []) :=
  ⟨(delete_task_spec
      { tasks := [{ id := 1, state := TaskState.running, finished_at := none },
                  { id := 2, state := TaskState.waiting, finished_at := none }],
        createdResources := [(7, 2)] }
      { id := 1, state := TaskState.running, finished_at := none }
      (by decide)).1 (Or.inl rfl),
   (delete_task_spec
      { tasks := [{ id := 1, state := TaskState.running, finished_at := none },
                  { id := 2, state := TaskState.waiting, finished_at := none }],
        createdResources := [(7, 2)] }
      { id := 2, state := TaskState.waiting, finished_at := none }
      (by decide)).2 (Or.inl rfl)⟩

/-- C8.  Requesting cancellation of a running task whose completion
timestamp is still null moves it to canceling; from there the worker's
acknowledgment reaches canceled in one step, the canceled record carries no
completion timestamp, and every state reachable after the cancel request is
canceling or canceled with `finished_at` still null — so the task
eventually ends canceled and never acquires a completion timestamp. -/
theorem cancel_running_task_eventually_canceled (t : TaskRecord)
    (hrun : t.state = TaskState.running) (hfin : t.finished_at = none) :
    TaskStep t { t with state := TaskState.canceling } ∧
    Relation.ReflTransGen TaskStep { t with state := TaskState.canceling }
      { t with state := TaskState.canceled } ∧
    ({ t with state := TaskState.canceled } : TaskRecord).state
      = TaskState.canceled ∧
    ({ t with state := TaskState.canceled } : TaskRecord).finished_at = none ∧
    (∀ u,
      Relation.ReflTransGen TaskStep { t with state := TaskState.canceling } u →
      (u.state = TaskState.canceling ∨ u.state = TaskState.canceled) ∧
        u.finished_at = none) := by
  refine ⟨TaskStep.cancelRunning t hrun, ?_, rfl, hfin, ?_⟩
  · exact Relation.ReflTransGen.single
      (TaskStep.ackCancel { t with state := TaskState.canceling } rfl)
  · intro u hu
    induction hu with
    | refl => exact ⟨Or.inl rfl, hfin⟩
    | tail hab hbc ih =>
        rcases ih with ⟨ihs, ihf⟩
        cases hbc with
        | dispatch h =>
            rw [h] at ihs
            rcases ihs with h2 | h2 <;> exact TaskState.noConfusion h2
        | complete time h =>
            rw [h] at ihs
            rcases ihs with h2 | h2 <;> exact TaskState.noConfusion h2
        | fail time h =>
            rw [h] at ihs
            rcases ihs with h2 | h2 <;> exact TaskState.noConfusion h2
        | cancelWaiting h =>
            rw [h] at ihs
            rcases ihs with h2 | h2 <;> exact TaskState.noConfusion h2
        | cancelRunning h =>
            rw [h] at ihs
            rcases ihs with h2 | h2 <;> exact TaskState.noConfusion h2
        | ackCancel h =>
            exact ⟨Or.inr rfl, ihf⟩

/-- Witness for `cancel_running_task_eventually_canceled` on a concrete
running task. -/
theorem cancel_running_task_eventually_canceled_witness :
    TaskStep { id := 3, state := TaskState.running, finished_at := none }
      { id := 3, state := TaskState.canceling, finished_at := none } ∧
    Relation.ReflTransGen TaskStep
      { id := 3, state := TaskState.canceling, finished_at := none }
      { id := 3, state := TaskState.canceled, finished_at := none } ∧
    ({ id := 3, state := TaskState.canceled,
       finished_at := none } : TaskRecord).state = TaskState.canceled ∧
    ({ id := 3, state := TaskState.canceled,
       finished_at := none } : TaskRecord).finished_at = none ∧
    (∀ u,
      Relation.ReflTransGen TaskStep
        { id := 3, state := TaskState.canceling, finished_at := none } u →
      (u.state = TaskState.canceling ∨ u.state = TaskState.canceled) ∧
        u.finished_at = none) :=
  cancel_running_task_eventually_canceled
    { id := 3, state := TaskState.running, finished_at := none } rfl rfl

end Pulpcore
